import Mathlib

/-!
Verification of the news-event volatility analysis core
(`news_volatility_analysis.py`): event-window alignment, volatility-change
computation, batch accumulation and summary statistics.

Modelling conventions:
* Calendar dates (`pd.Timestamp`) are embedded as integers `ℤ`; the ascending
  `DatetimeIndex` of a DataFrame becomes a `List ℤ`.
* Prices and returns are exact rationals `ℚ` (idealising IEEE floats); a
  pandas `NaN` entry is `Option.none`.
* A pandas DataFrame with a `Close` column, a date index and an optional
  `Returns` column (the column does not exist until the script assigns it)
  is the structure `StockData`; assigning the column is explicit state
  passing.
* `pandas.Series.std` is the square root of the ddof-1 sample variance,
  skipping NaN, and is NaN when fewer than 2 non-NaN values remain.  Since
  `ℚ` is not closed under square roots, the square root itself is abstracted
  as a parameter `s : ℚ → ℚ` applied to the exact sample variance; every
  property proved below is invariant under the choice of `s`.
* Exceptions (`pd.to_datetime` parse errors, Python `ZeroDivisionError`)
  are `Except.error`.
-/

/-- A stock-price DataFrame: date index, `Close` column, and the `Returns`
column, which is absent (`none`) until `calculate_event_volatility`
assigns it. -/
structure StockData where
  index : List ℤ
  close : List ℚ
  returns : Option (List (Option ℚ))
deriving DecidableEq, Repr

/-- Model of `Series.pct_change`: first entry NaN, then `close[i] / close[i-1] - 1`. -/
def pctChange (close : List ℚ) : List (Option ℚ) :=
  match close with
  | [] => []
  | _ :: _ => none :: List.zipWith (fun prev cur => some (cur / prev - 1)) close close.tail

/-- Model of `numpy.searchsorted` (side `left`) on an ascending index: the insertion
position of `d`, i.e. the number of entries strictly below `d` (binary
search, specified for sorted input). -/
def searchsorted (l : List ℤ) (d : ℤ) : ℕ :=
  (l.takeWhile (fun x => decide (x < d))).length

/-- Python slice `xs[a:b]` (`.iloc[a:b]`) for clipped bounds `0 ≤ a, b`. -/
def ilocSlice (xs : List α) (a b : ℕ) : List α :=
  (xs.take b).drop a

/-- The event anchor `event_idx = stock_data.index.searchsorted(event_date)`. -/
def anchor (data : StockData) (d : ℤ) : ℕ :=
  searchsorted data.index d

/-- Source line 79: `before_start = max(0, event_idx - window - 1)`. -/
def beforeStart (p w : ℕ) : ℕ :=
  (max 0 ((p : ℤ) - w - 1)).toNat

/-- Source line 85: `after_end = min(len(stock_data), event_idx + window)`. -/
def afterEnd (len p w : ℕ) : ℕ :=
  min len (p + w)

/-- Source line 81: `before_returns = stock_data['Returns'].iloc[before_start:before_end]`. -/
def beforeReturns (data : StockData) (d : ℤ) (w : ℕ) : List (Option ℚ) :=
  ilocSlice (pctChange data.close) (beforeStart (anchor data d) w) (anchor data d)

/-- Source line 86: `after_returns = stock_data['Returns'].iloc[after_start:after_end]`. -/
def afterReturns (data : StockData) (d : ℤ) (w : ℕ) : List (Option ℚ) :=
  ilocSlice (pctChange data.close) (anchor data d) (afterEnd data.index.length (anchor data d) w)

/-- The non-NaN entries of a window (pandas `skipna`). -/
def usable (xs : List (Option ℚ)) : List ℚ :=
  xs.filterMap id

/-- The ddof-1 (sample) variance `Σ (y - mean)² / (n - 1)`; only meaningful
for `n ≥ 2`, which is the only way `sampleStd` uses it. -/
def sampleVar (ys : List ℚ) : ℚ :=
  let m := ys.sum / (ys.length : ℚ)
  (ys.map (fun y => (y - m) ^ 2)).sum / ((ys.length : ℚ) - 1)

/-- Model of `Series.std()`: NaN (`none`) when fewer than two non-NaN observations
remain, otherwise the square root (abstracted as `s`) of the sample
variance of the non-NaN observations. -/
def sampleStd (s : ℚ → ℚ) (xs : List (Option ℚ)) : Option ℚ :=
  if (usable xs).length < 2 then none else some (s (sampleVar (usable xs)))

/-- The function `calculate_event_volatility` (source lines 58-92), after the event date
has been parsed: assigns the `Returns` column on the caller's DataFrame and
returns the mutated DataFrame together with `(before_vol, after_vol)`. -/
def calculate_event_volatility (s : ℚ → ℚ) (data : StockData) (d : ℤ) (w : ℕ) :
    StockData × Option ℚ × Option ℚ :=
  ({ data with returns := some (pctChange data.close) },
   sampleStd s (beforeReturns data d w),
   sampleStd s (afterReturns data d w))

/-- One row of the ResultsTable (source lines 120-128). -/
structure VolatilityRecord where
  Ticker : String
  Event : String
  Date : String
  Before_Volatility : ℚ
  After_Volatility : ℚ
  Volatility_Change : ℚ
  Volatility_Change_Pct : ℚ
deriving DecidableEq, Repr

/-- The per-ticker event loop of `analyze_all_events` (source lines 108-130):
parse the event date (`pd.to_datetime`, raising on failure), evaluate the
windows, coalesce NaN volatilities to `0`, and append a record exactly when
both coalesced values are strictly positive.  The DataFrame is threaded
because `calculate_event_volatility` mutates it. -/
def analyzeEvents (s : ℚ → ℚ) (parse : String → Option ℤ) (tk : String) :
    StockData → List (String × String) → Except String (StockData × List VolatilityRecord)
  | data, [] => .ok (data, [])
  | data, (name, ds) :: rest =>
    match parse ds with
    | none => .error ds
    | some d =>
      let res := calculate_event_volatility s data d 5
      let bvv := res.2.1.getD 0
      let avv := res.2.2.getD 0
      match analyzeEvents s parse tk res.1 rest with
      | .error e => .error e
      | .ok (dfin, recs) =>
        if 0 < bvv ∧ 0 < avv then
          .ok (dfin, { Ticker := tk, Event := name, Date := ds,
                       Before_Volatility := bvv, After_Volatility := avv,
                       Volatility_Change := avv - bvv,
                       Volatility_Change_Pct := (avv - bvv) / bvv * 100 } :: recs)
        else .ok (dfin, recs)

/-- The function `analyze_all_events` (source lines 98-132) over an already-fetched batch:
each entry is a ticker, its downloaded price data (an unavailable series is
the empty DataFrame `yf.download` returns) and its labelled events. -/
def analyze_all_events (s : ℚ → ℚ) (parse : String → Option ℤ) :
    List (String × StockData × List (String × String)) → Except String (List VolatilityRecord)
  | [] => .ok []
  | (tk, data, evts) :: rest =>
    match analyzeEvents s parse tk data evts with
    | .error e => .error e
    | .ok (_, recs) =>
      match analyze_all_events s parse rest with
      | .error e => .error e
      | .ok more => .ok (recs ++ more)

/-! Lemmas about the derived return series (`pct_change`) -/

theorem pctChange_length (close : List ℚ) : (pctChange close).length = close.length := by
  cases close with
  | nil => rfl
  | cons c rest => simp [pctChange, List.length_zipWith]

theorem zip_returns_getD (prev : ℚ) (rest : List ℚ) :
    ∀ i : ℕ, i < rest.length →
      (List.zipWith (fun p c => some (c / p - 1)) (prev :: rest) rest).getD i none
        = some (rest.getD i 0 / (prev :: rest).getD i 0 - 1) := by
  induction rest generalizing prev with
  | nil => intro i hi; simp at hi
  | cons r rs ih =>
    intro i hi
    cases i with
    | zero => simp
    | succ j =>
      simp only [List.zipWith, List.getD_cons_succ]
      exact ih r j (by simpa using hi)

theorem pctChange_getD (close : List ℚ) (i : ℕ) (h : i + 1 < close.length) :
    (pctChange close).getD (i + 1) none
      = some (close.getD (i + 1) 0 / close.getD i 0 - 1) := by
  cases close with
  | nil => simp at h
  | cons c rest =>
    have hr : i < rest.length := by simpa using h
    simp only [pctChange, List.tail_cons, List.getD_cons_succ]
    simpa using zip_returns_getD c rest i hr

/-- C7: for a price series of length ≥ 2 with positive closes, the derived
return series has the same length, its first value is undefined (NaN), and
`return[i] = close[i]/close[i-1] - 1` for `i ≥ 1`, so that
`close[i] = close[i-1] * (1 + return[i])`. -/
theorem returnSeries_roundtrip (close : List ℚ) (h2 : 2 ≤ close.length)
    (hpos : ∀ c ∈ close, 0 < c) :
    (pctChange close).length = close.length
  ∧ (pctChange close).head? = some none
  ∧ ∀ i : ℕ, i + 1 < close.length →
      (pctChange close).getD (i + 1) none
        = some (close.getD (i + 1) 0 / close.getD i 0 - 1)
      ∧ close.getD (i + 1) 0
        = close.getD i 0 * (1 + (close.getD (i + 1) 0 / close.getD i 0 - 1)) := by
  refine ⟨pctChange_length close, ?_, ?_⟩
  · cases close with
    | nil => simp at h2
    | cons c rest => rfl
  · intro i hi
    refine ⟨pctChange_getD close i hi, ?_⟩
    have hilt : i < close.length := Nat.lt_of_succ_lt hi
    have hmem : close.getD i 0 ∈ close := by
      rw [List.getD_eq_getElem close 0 hilt]
      exact List.getElem_mem hilt
    have hc : close.getD i 0 ≠ 0 := ne_of_gt (hpos _ hmem)
    have hc2 : close.get ⟨i, hilt⟩ ≠ 0 := by
      rw [List.get_eq_getElem]
      rwa [List.getD_eq_getElem close 0 hilt] at hc
    rw [List.get_eq_getElem] at hc2
    field_simp

/-- Witness for C7 at the concrete series `[1, 2, 1]`. -/
theorem returnSeries_roundtrip_witness :
    (2 ≤ ([1, 2, 1] : List ℚ).length ∧ ∀ c ∈ ([1, 2, 1] : List ℚ), 0 < c)
  ∧ (pctChange [1, 2, 1]).length = ([1, 2, 1] : List ℚ).length
  ∧ (pctChange [1, 2, 1]).head? = some none := by
  have h := returnSeries_roundtrip [1, 2, 1] (by decide) (by decide)
  exact ⟨⟨by decide, by decide⟩, h.1, h.2.1⟩

/-! Lemmas about the anchor (`searchsorted`) and the windows -/

theorem searchsorted_le (l : List ℤ) (d : ℤ) : searchsorted l d ≤ l.length :=
  (List.takeWhile_sublist _).length_le

theorem searchsorted_lt_iff :
    ∀ (l : List ℤ), l.Pairwise (· < ·) → ∀ (d : ℤ) (i : ℕ) (h : i < l.length),
      (i < searchsorted l d ↔ l.get ⟨i, h⟩ < d) := by
  intro l
  induction l with
  | nil => intro _ d i h; simp at h
  | cons x xs ih =>
    intro hp d i h
    have hx : ∀ y ∈ xs, x < y := (List.pairwise_cons.mp hp).1
    have hxs : xs.Pairwise (· < ·) := hp.of_cons
    by_cases hd : x < d
    · have hss : searchsorted (x :: xs) d = searchsorted xs d + 1 := by
        simp [searchsorted, List.takeWhile_cons, hd]
      cases i with
      | zero => simpa [hss] using hd
      | succ j =>
        have hj : j < xs.length := by simpa using h
        have := ih hxs d j hj
        simpa [hss, Nat.succ_lt_succ_iff] using this
    · have hss : searchsorted (x :: xs) d = 0 := by
        simp [searchsorted, List.takeWhile_cons, hd]
      cases i with
      | zero => simpa [hss] using hd
      | succ j =>
        have hj : j < xs.length := by simpa using h
        have hgt : d ≤ x := le_of_not_lt hd
        have hxj : x < xs.get ⟨j, hj⟩ := hx _ (xs.get_mem j hj)
        simp only [hss, List.get_cons_succ]
        constructor
        · intro hlt; exact absurd hlt (by omega)
        · intro hlt; exact absurd hlt (by omega)

/-- C4: on a strictly ascending index, the anchor is the insertion position
(the smallest `p` with `index[p] ≥ event_date`, pointing at the event date
itself when present), the before/after windows are exactly the clipped
ranges `[max(0, p - w - 1), p)` and `[p, min(length, p + w))`, an event
date before the first entry gives `p = 0` and an empty before-window, and
an event date after the last entry gives `p = length`. -/
theorem anchor_insertion_position (data : StockData) (d : ℤ) (w : ℕ)
    (hsort : data.index.Pairwise (· < ·)) :
    anchor data d ≤ data.index.length
  ∧ (∀ (i : ℕ) (h : i < data.index.length),
      (i < anchor data d ↔ data.index.get ⟨i, h⟩ < d))
  ∧ (∀ (j : ℕ) (h : j < data.index.length),
      data.index.get ⟨j, h⟩ = d → anchor data d = j)
  ∧ beforeReturns data d w
      = ilocSlice (pctChange data.close)
          ((max 0 ((anchor data d : ℤ) - w - 1)).toNat) (anchor data d)
  ∧ afterReturns data d w
      = ilocSlice (pctChange data.close) (anchor data d)
          (min data.index.length (anchor data d + w))
  ∧ (∀ h : data.index ≠ [],
      d < data.index.head h → anchor data d = 0 ∧ beforeReturns data d w = [])
  ∧ (∀ h : data.index ≠ [],
      data.index.getLast h < d → anchor data d = data.index.length) := by
  have hle : anchor data d ≤ data.index.length := searchsorted_le _ _
  have hiff := searchsorted_lt_iff data.index hsort d
  have hmono : ∀ (i j : ℕ) (hi : i < data.index.length) (hj : j < data.index.length),
      i < j → data.index.get ⟨i, hi⟩ < data.index.get ⟨j, hj⟩ := by
    intro i j hi hj hij
    exact List.pairwise_iff_get.mp hsort ⟨i, hi⟩ ⟨j, hj⟩ hij
  refine ⟨hle, hiff, ?_, rfl, rfl, ?_, ?_⟩
  · intro j h hj
    have h1 : ¬ j < anchor data d := by
      intro hlt
      have := (hiff j h).mp hlt
      omega
    have h2 : ¬ anchor data d < j := by
      intro hlt
      have hp : anchor data d < data.index.length := lt_trans hlt h
      have hnot : ¬ anchor data d < anchor data d := lt_irrefl _
      have hnot2 : ¬ data.index.get ⟨anchor data d, hp⟩ < d := fun hc =>
        hnot ((hiff _ hp).mpr hc)
      have := hmono _ _ hp h hlt
      omega
    omega
  · intro h hd
    have h0 : 0 < data.index.length := List.length_pos.mpr h
    have hh : data.index.head h = data.index.get ⟨0, h0⟩ := by
      simp [List.head_eq_getElem, List.get_eq_getElem]
    have hnot : ¬ (0 < anchor data d) := by
      intro hlt
      have := (hiff 0 h0).mp hlt
      rw [hh] at hd
      omega
    have hz : anchor data d = 0 := by omega
    refine ⟨hz, ?_⟩
    simp [beforeReturns, ilocSlice, hz]
  · intro h hd
    by_contra hne
    have hp : anchor data d < data.index.length := lt_of_le_of_ne hle hne
    have hdp : d ≤ data.index.get ⟨anchor data d, hp⟩ := by
      have hnot : ¬ data.index.get ⟨anchor data d, hp⟩ < d := fun hc =>
        (lt_irrefl _) ((hiff _ hp).mpr hc)
      omega
    have hlast : data.index.getLast h
        = data.index.get ⟨data.index.length - 1, by omega⟩ := by
      simp [List.getLast_eq_getElem, List.get_eq_getElem]
    have hple : data.index.get ⟨anchor data d, hp⟩ ≤ data.index.getLast h := by
      rcases Nat.lt_or_ge (anchor data d) (data.index.length - 1) with hc | hc
      · have := hmono (anchor data d) (data.index.length - 1) hp (by omega) hc
        rw [← hlast] at this
        omega
      · have heq : (⟨anchor data d, hp⟩ : Fin data.index.length)
            = ⟨data.index.length - 1, by omega⟩ := Fin.ext (by simp; omega)
        rw [hlast, heq]
    omega

/-- A small concrete DataFrame: three sessions at dates `0, 2, 4`. -/
def dataW : StockData :=
  { index := [0, 2, 4], close := [1, 2, 3], returns := none }

/-- Witness for C4: index `[0, 2, 4]`, event date `3` (absent from the
index) anchors at position `2`, the first later date. -/
theorem anchor_insertion_position_witness :
    (dataW.index.Pairwise (· < ·))
  ∧ anchor dataW 3 ≤ dataW.index.length
  ∧ anchor dataW 3 = 2 := by
  have h := anchor_insertion_position dataW 3 5 (by decide)
  exact ⟨by decide, h.1, by decide⟩

/-- C6 (amended): for a DataFrame whose index and close column agree in
length and for a window length `w ≥ 1`, the before-window holds at most
`w + 1` observations and the after-window at most `w`; the before-window is
empty exactly when the anchor is `0` and the after-window exactly when the
anchor is the series length.  (For `w = 0` the after-window is always
empty, see `window_empty_counterexample`.) -/
theorem window_length_bounds (data : StockData) (d : ℤ) (w : ℕ)
    (hlen : data.index.length = data.close.length) (hw : 1 ≤ w) :
    (beforeReturns data d w).length ≤ w + 1
  ∧ (afterReturns data d w).length ≤ w
  ∧ (beforeReturns data d w = [] ↔ anchor data d = 0)
  ∧ (afterReturns data d w = [] ↔ anchor data d = data.index.length) := by
  have hp : anchor data d ≤ data.index.length := searchsorted_le _ _
  have hr : (pctChange data.close).length = data.close.length := pctChange_length _
  have hbs : ((beforeStart (anchor data d) w : ℕ) : ℤ)
      = max 0 ((anchor data d : ℤ) - w - 1) :=
    Int.toNat_of_nonneg (le_max_left 0 _)
  have hblen : (beforeReturns data d w).length
      = anchor data d - beforeStart (anchor data d) w := by
    simp only [beforeReturns, ilocSlice, List.length_drop, List.length_take]
    omega
  have halen : (afterReturns data d w).length
      = afterEnd data.index.length (anchor data d) w - anchor data d := by
    simp only [afterReturns, ilocSlice, List.length_drop, List.length_take,
      afterEnd]
    omega
  refine ⟨?_, ?_, ?_, ?_⟩
  · rw [hblen]; omega
  · rw [halen]; simp only [afterEnd]; omega
  · rw [← List.length_eq_zero, hblen]; omega
  · rw [← List.length_eq_zero, halen]; simp only [afterEnd]; omega

/-- A concrete DataFrame with four sessions used to refute the `w = 0`
boundary case of C6. -/
def dataC6 : StockData :=
  { index := [0, 1, 2, 3], close := [1, 2, 3, 4], returns := none }

/-- Counterexample to C6 as stated: with window length `w = 0` the
after-window is empty although the anchor (position `2`) is not the series
end, even on a well-formed DataFrame. -/
theorem window_empty_counterexample :
    dataC6.index.length = dataC6.close.length
  ∧ afterReturns dataC6 2 0 = []
  ∧ anchor dataC6 2 ≠ dataC6.index.length := by
  refine ⟨rfl, ?_, by decide⟩
  rfl

/-- Witness for C6 at `w = 1` on `dataC6` with event date `2`. -/
theorem window_length_bounds_witness :
    (dataC6.index.length = dataC6.close.length ∧ 1 ≤ 1)
  ∧ (beforeReturns dataC6 2 1).length ≤ 1 + 1
  ∧ (afterReturns dataC6 2 1 = [] ↔ anchor dataC6 2 = dataC6.index.length) := by
  have h := window_length_bounds dataC6 2 1 rfl (by decide)
  exact ⟨⟨rfl, by decide⟩, h.1, h.2.2.2⟩

/-- C10: the before-window is exactly the slice `[beforeStart, p)` and the
after-window the slice `[p, afterEnd)` of the return series, and these
half-open index ranges are disjoint: no return observation enters both the
before- and the after-volatility statistic. -/
theorem windows_disjoint (data : StockData) (d : ℤ) (w : ℕ) :
    Disjoint (Finset.Ico (beforeStart (anchor data d) w) (anchor data d))
             (Finset.Ico (anchor data d) (afterEnd data.index.length (anchor data d) w))
  ∧ beforeReturns data d w
      = ilocSlice (pctChange data.close) (beforeStart (anchor data d) w) (anchor data d)
  ∧ afterReturns data d w
      = ilocSlice (pctChange data.close) (anchor data d)
          (afterEnd data.index.length (anchor data d) w) :=
  ⟨Finset.Ico_disjoint_Ico_consecutive _ _ _, rfl, rfl⟩

/-! Lemmas about the batch analyzer and the emission guard -/

theorem getD_zero_pos_iff (o : Option ℚ) :
    0 < o.getD 0 ↔ ∃ v, o = some v ∧ 0 < v := by
  cases o <;> simp

theorem sampleStd_isSome_iff (s : ℚ → ℚ) (xs : List (Option ℚ)) :
    (sampleStd s xs).isSome ↔ 2 ≤ (usable xs).length := by
  unfold sampleStd
  split
  · next h => simpa using (by omega : ¬ 2 ≤ (usable xs).length)
  · next h => simpa using (by omega : 2 ≤ (usable xs).length)

/-- Unfolding of one step of the per-ticker event loop. -/
theorem analyzeEvents_cons (s : ℚ → ℚ) (parse : String → Option ℤ)
    (tk : String) (data : StockData) (name ds : String)
    (rest : List (String × String)) :
    analyzeEvents s parse tk data ((name, ds) :: rest)
      = match parse ds with
        | none => .error ds
        | some d =>
          match analyzeEvents s parse tk (calculate_event_volatility s data d 5).1 rest with
          | .error e => .error e
          | .ok (dfin, recs) =>
            if 0 < (calculate_event_volatility s data d 5).2.1.getD 0
                ∧ 0 < (calculate_event_volatility s data d 5).2.2.getD 0 then
              .ok (dfin,
                { Ticker := tk, Event := name, Date := ds,
                  Before_Volatility := (calculate_event_volatility s data d 5).2.1.getD 0,
                  After_Volatility := (calculate_event_volatility s data d 5).2.2.getD 0,
                  Volatility_Change := (calculate_event_volatility s data d 5).2.2.getD 0
                    - (calculate_event_volatility s data d 5).2.1.getD 0,
                  Volatility_Change_Pct := ((calculate_event_volatility s data d 5).2.2.getD 0
                    - (calculate_event_volatility s data d 5).2.1.getD 0)
                    / (calculate_event_volatility s data d 5).2.1.getD 0 * 100 } :: recs)
            else .ok (dfin, recs) := rfl

/-- When the event date parses but the guard fails, the event is skipped:
the loop continues on the mutated DataFrame with no record and no error. -/
theorem analyzeEvents_skip (s : ℚ → ℚ) (parse : String → Option ℤ)
    (tk : String) (data : StockData) (name ds : String) (d : ℤ)
    (rest : List (String × String)) (hp : parse ds = some d)
    (hg : ¬ (0 < (calculate_event_volatility s data d 5).2.1.getD 0
          ∧ 0 < (calculate_event_volatility s data d 5).2.2.getD 0)) :
    analyzeEvents s parse tk data ((name, ds) :: rest)
      = analyzeEvents s parse tk (calculate_event_volatility s data d 5).1 rest := by
  simp only [analyzeEvents_cons, hp]
  cases h : analyzeEvents s parse tk (calculate_event_volatility s data d 5).1 rest with
  | error e => rfl
  | ok pr =>
    obtain ⟨dfin, recs⟩ := pr
    simp [if_neg hg]

/-- When the event date parses and the guard passes, exactly one record is
prepended, built from the two positive volatilities. -/
theorem analyzeEvents_emit (s : ℚ → ℚ) (parse : String → Option ℤ)
    (tk : String) (data : StockData) (name ds : String) (d : ℤ)
    (rest : List (String × String)) (hp : parse ds = some d)
    (b a : ℚ)
    (hb : (calculate_event_volatility s data d 5).2.1 = some b) (hbpos : 0 < b)
    (ha : (calculate_event_volatility s data d 5).2.2 = some a) (hapos : 0 < a)
    (dfin : StockData) (recs : List VolatilityRecord)
    (hrec : analyzeEvents s parse tk (calculate_event_volatility s data d 5).1 rest
      = .ok (dfin, recs)) :
    analyzeEvents s parse tk data ((name, ds) :: rest)
      = .ok (dfin, { Ticker := tk, Event := name, Date := ds,
                     Before_Volatility := b, After_Volatility := a,
                     Volatility_Change := a - b,
                     Volatility_Change_Pct := (a - b) / b * 100 } :: recs) := by
  simp only [analyzeEvents_cons, hp, hrec, hb, ha, Option.getD_some]
  rw [if_pos ⟨hbpos, hapos⟩]

/-- Every record produced by the per-ticker loop has strictly positive
volatilities and change fields computed from them; the loop only ever
touches the `Returns` column of the DataFrame. -/
theorem analyzeEvents_ok_mem (s : ℚ → ℚ) (parse : String → Option ℤ) (tk : String) :
    ∀ (evts : List (String × String)) (data dfin : StockData)
      (rs : List VolatilityRecord),
      analyzeEvents s parse tk data evts = .ok (dfin, rs) →
      (∀ r ∈ rs, 0 < r.Before_Volatility ∧ 0 < r.After_Volatility
        ∧ r.Volatility_Change = r.After_Volatility - r.Before_Volatility
        ∧ r.Volatility_Change_Pct
            = (r.After_Volatility - r.Before_Volatility) / r.Before_Volatility * 100)
      ∧ dfin.index = data.index ∧ dfin.close = data.close := by
  intro evts
  induction evts with
  | nil =>
    intro data dfin rs h
    simp only [analyzeEvents, Except.ok.injEq, Prod.mk.injEq] at h
    obtain ⟨h1, h2⟩ := h
    subst h1; subst h2
    exact ⟨by simp, rfl, rfl⟩
  | cons ev rest ih =>
    intro data dfin rs h
    obtain ⟨name, ds⟩ := ev
    rw [analyzeEvents_cons] at h
    cases hp : parse ds with
    | none => rw [hp] at h; cases h
    | some d =>
      simp only [hp] at h
      cases hrec : analyzeEvents s parse tk (calculate_event_volatility s data d 5).1 rest with
      | error e => simp only [hrec] at h; cases h
      | ok pr =>
        obtain ⟨dmid, recs⟩ := pr
        simp only [hrec] at h
        have ihres := ih (calculate_event_volatility s data d 5).1 dmid recs hrec
        have hframe : dmid.index = data.index ∧ dmid.close = data.close := by
          exact ⟨ihres.2.1, ihres.2.2⟩
        by_cases hg : 0 < (calculate_event_volatility s data d 5).2.1.getD 0
            ∧ 0 < (calculate_event_volatility s data d 5).2.2.getD 0
        · rw [if_pos hg] at h
          simp only [Except.ok.injEq, Prod.mk.injEq] at h
          obtain ⟨h1, h2⟩ := h
          subst h1
          refine ⟨?_, hframe.1, hframe.2⟩
          intro r hr
          rw [← h2] at hr
          rcases List.mem_cons.mp hr with hr0 | hrmem
          · subst hr0
            exact ⟨hg.1, hg.2, rfl, rfl⟩
          · exact ihres.1 r hrmem
        · rw [if_neg hg] at h
          simp only [Except.ok.injEq, Prod.mk.injEq] at h
          obtain ⟨h1, h2⟩ := h
          subst h1
          refine ⟨?_, hframe.1, hframe.2⟩
          intro r hr
          rw [← h2] at hr
          exact ihres.1 r hr

/-- Lifting of `analyzeEvents_ok_mem` to the whole batch. -/
theorem analyze_all_events_ok_mem (s : ℚ → ℚ) (parse : String → Option ℤ) :
    ∀ (batch : List (String × StockData × List (String × String)))
      (rs : List VolatilityRecord),
      analyze_all_events s parse batch = .ok rs →
      ∀ r ∈ rs, 0 < r.Before_Volatility ∧ 0 < r.After_Volatility
        ∧ r.Volatility_Change = r.After_Volatility - r.Before_Volatility
        ∧ r.Volatility_Change_Pct
            = (r.After_Volatility - r.Before_Volatility) / r.Before_Volatility * 100 := by
  intro batch
  induction batch with
  | nil =>
    intro rs h
    simp only [analyze_all_events, Except.ok.injEq] at h
    subst h
    simp
  | cons entry rest ih =>
    intro rs h
    obtain ⟨tk, data, evts⟩ := entry
    simp only [analyze_all_events] at h
    cases hE : analyzeEvents s parse tk data evts with
    | error e => rw [hE] at h; cases h
    | ok pr =>
      obtain ⟨dfin, recs⟩ := pr
      rw [hE] at h
      cases hR : analyze_all_events s parse rest with
      | error e => rw [hR] at h; cases h
      | ok more =>
        rw [hR] at h
        simp only [Except.ok.injEq] at h
        subst h
        intro r hr
        rcases List.mem_append.mp hr with hmem | hmem
        · exact (analyzeEvents_ok_mem s parse tk evts data dfin recs hE).1 r hmem
        · exact ih more hR r hmem

/-- C1: a record is appended for a (series, event) pair if and only if both
window statistics are defined (at least two usable, non-NaN return values,
`sampleStd_isSome_iff` part) and strictly positive; otherwise the event is
silently skipped (the loop continues on the remaining events with no record
and no error), and every record stored in the ResultsTable has
`Before_Volatility > 0` and `After_Volatility > 0`. -/
theorem volatility_guard_emission (s : ℚ → ℚ) (parse : String → Option ℤ) :
    (∀ (batch : List (String × StockData × List (String × String)))
       (rs : List VolatilityRecord),
       analyze_all_events s parse batch = .ok rs →
       ∀ r ∈ rs, 0 < r.Before_Volatility ∧ 0 < r.After_Volatility)
  ∧ (∀ xs : List (Option ℚ), (sampleStd s xs).isSome ↔ 2 ≤ (usable xs).length)
  ∧ (∀ (tk name ds : String) (d : ℤ) (data : StockData)
       (rest : List (String × String)),
       parse ds = some d →
       (¬ ((∃ b, (calculate_event_volatility s data d 5).2.1 = some b ∧ 0 < b)
           ∧ (∃ a, (calculate_event_volatility s data d 5).2.2 = some a ∧ 0 < a)) →
         analyzeEvents s parse tk data ((name, ds) :: rest)
           = analyzeEvents s parse tk (calculate_event_volatility s data d 5).1 rest)
       ∧ (∀ b a, (calculate_event_volatility s data d 5).2.1 = some b → 0 < b →
           (calculate_event_volatility s data d 5).2.2 = some a → 0 < a →
           ∀ (dfin : StockData) (recs : List VolatilityRecord),
             analyzeEvents s parse tk (calculate_event_volatility s data d 5).1 rest
               = .ok (dfin, recs) →
             analyzeEvents s parse tk data ((name, ds) :: rest)
               = .ok (dfin, { Ticker := tk, Event := name, Date := ds,
                              Before_Volatility := b, After_Volatility := a,
                              Volatility_Change := a - b,
                              Volatility_Change_Pct := (a - b) / b * 100 } :: recs))) := by
  refine ⟨?_, sampleStd_isSome_iff s, ?_⟩
  · intro batch rs h r hr
    have := analyze_all_events_ok_mem s parse batch rs h r hr
    exact ⟨this.1, this.2.1⟩
  · intro tk name ds d data rest hp
    constructor
    · intro hg
      apply analyzeEvents_skip s parse tk data name ds d rest hp
      intro hc
      exact hg ⟨(getD_zero_pos_iff _).mp hc.1, (getD_zero_pos_iff _).mp hc.2⟩
    · intro b a hb hbpos ha hapos dfin recs hrec
      exact analyzeEvents_emit s parse tk data name ds d rest hp b a hb hbpos ha hapos
        dfin recs hrec

/-- The event-date parser used by the concrete fixtures: only the string
`"d6"` parses (to day 6); every other string raises in `pd.to_datetime`. -/
def parse0 : String → Option ℤ :=
  fun str => if str = "d6" then some 6 else none

/-- Twelve trading sessions with oscillating closes; every 5-observation
window of its return series has positive dispersion. -/
def data12 : StockData :=
  { index := [0, 1, 2, 3, 4, 5, 6, 7, 8, 9, 10, 11],
    close := [1, 2, 1, 2, 1, 2, 1, 2, 1, 2, 1, 2],
    returns := none }

/-- A batch with one series and one well-formed event at day 6. -/
def batchGood : List (String × StockData × List (String × String)) :=
  [("T", data12, [("E1", "d6")])]

/-- The single record `batchGood` produces (with the square root abstracted
by `id`, the stored volatilities are the window sample variances). -/
def R0 : VolatilityRecord :=
  { Ticker := "T", Event := "E1", Date := "d6",
    Before_Volatility := 27/40, After_Volatility := 27/40,
    Volatility_Change := 0, Volatility_Change_Pct := 0 }

/-- Witness for C1: on `batchGood` exactly one record is emitted and the
positivity invariant holds for it. -/
theorem volatility_guard_emission_witness :
    analyze_all_events id parse0 batchGood = .ok [R0]
  ∧ 0 < R0.Before_Volatility ∧ 0 < R0.After_Volatility := by
  refine ⟨by with_unfolding_all rfl, ?_⟩
  exact (volatility_guard_emission id parse0).1 batchGood [R0] (by with_unfolding_all rfl) R0
    (List.mem_singleton.mpr rfl)

/-- C5: every emitted record satisfies `change = after - before` and
`change_pct = (after - before) / before * 100` exactly. -/
theorem record_change_equations (s : ℚ → ℚ) (parse : String → Option ℤ)
    (batch : List (String × StockData × List (String × String)))
    (rs : List VolatilityRecord) (h : analyze_all_events s parse batch = .ok rs)
    (r : VolatilityRecord) (hr : r ∈ rs) (_hb : 0 < r.Before_Volatility) :
    r.Volatility_Change = r.After_Volatility - r.Before_Volatility
  ∧ r.Volatility_Change_Pct
      = (r.After_Volatility - r.Before_Volatility) / r.Before_Volatility * 100 := by
  have := analyze_all_events_ok_mem s parse batch rs h r hr
  exact ⟨this.2.2.1, this.2.2.2⟩

/-- Witness for C5 at the concrete batch `batchGood` and its record `R0`. -/
theorem record_change_equations_witness :
    (analyze_all_events id parse0 batchGood = .ok [R0] ∧ 0 < R0.Before_Volatility)
  ∧ R0.Volatility_Change = R0.After_Volatility - R0.Before_Volatility
  ∧ R0.Volatility_Change_Pct
      = (R0.After_Volatility - R0.Before_Volatility) / R0.Before_Volatility * 100 := by
  refine ⟨⟨by with_unfolding_all rfl, by norm_num [R0]⟩, ?_⟩
  exact record_change_equations id parse0 batchGood [R0] (by with_unfolding_all rfl) R0
    (List.mem_singleton.mpr rfl) (by norm_num [R0])

/-! Failure isolation: unavailable series and unparseable dates (C3) -/

/-- A series with no rows (what `yf.download` returns when the price data
cannot be obtained) yields no usable window, so every event whose date
parses is skipped by the guard and the series contributes zero records. -/
theorem analyzeEvents_empty_close (s : ℚ → ℚ) (parse : String → Option ℤ) (tk : String) :
    ∀ (evts : List (String × String)) (data : StockData), data.close = [] →
      (∀ e ∈ evts, (parse e.2).isSome) →
      ∃ dfin, analyzeEvents s parse tk data evts = .ok (dfin, []) := by
  intro evts
  induction evts with
  | nil => intro data _ _; exact ⟨data, rfl⟩
  | cons ev rest ih =>
    intro data hclose hparse
    obtain ⟨name, ds⟩ := ev
    obtain ⟨d, hd⟩ := Option.isSome_iff_exists.mp (hparse (name, ds) (List.mem_cons_self _ _))
    have hbv : (calculate_event_volatility s data d 5).2.1 = none := by
      simp [calculate_event_volatility, sampleStd, beforeReturns, ilocSlice,
        pctChange, hclose, usable]
    have hg : ¬ (0 < (calculate_event_volatility s data d 5).2.1.getD 0
        ∧ 0 < (calculate_event_volatility s data d 5).2.2.getD 0) := by
      rw [hbv]
      intro hc
      exact absurd hc.1 (by simp)
    have hstep := analyzeEvents_skip s parse tk data name ds d rest hd hg
    have hclose2 : (calculate_event_volatility s data d 5).1.close = [] := hclose
    obtain ⟨dfin, hfin⟩ := ih (calculate_event_volatility s data d 5).1 hclose2
      (fun e he => hparse e (List.mem_cons_of_mem _ he))
    exact ⟨dfin, by rw [hstep, hfin]⟩

/-- C3 (amended): a series whose price data cannot be obtained (an empty
DataFrame) contributes zero records and the remaining series produce
exactly the records they would produce without it — provided its event
dates parse; but an event whose date cannot be parsed raises in
`pd.to_datetime`, aborting the whole batch instead of being skipped. -/
theorem failure_isolation (s : ℚ → ℚ) (parse : String → Option ℤ) :
    (∀ (tk : String) (evts : List (String × String))
       (rest : List (String × StockData × List (String × String))),
       (∀ e ∈ evts, (parse e.2).isSome) →
       analyze_all_events s parse ((tk, ⟨[], [], none⟩, evts) :: rest)
         = analyze_all_events s parse rest)
  ∧ (∀ (tk : String) (data : StockData) (name ds : String)
       (rest : List (String × String)),
       parse ds = none →
       analyzeEvents s parse tk data ((name, ds) :: rest) = .error ds) := by
  constructor
  · intro tk evts rest hparse
    obtain ⟨dfin, hfin⟩ := analyzeEvents_empty_close s parse tk evts ⟨[], [], none⟩ rfl hparse
    simp only [analyze_all_events, hfin]
    cases h : analyze_all_events s parse rest with
    | error e => rfl
    | ok more => simp
  · intro tk data name ds rest hp
    rw [analyzeEvents_cons, hp]

/-- Counterexample to C3 as stated: appending a second event with an
unparseable date `"oops"` to `batchGood` makes the whole run abort with an
error, so the record for the first (well-formed) pair is lost rather than
unaffected. -/
def batchBad : List (String × StockData × List (String × String)) :=
  [("T", data12, [("E1", "d6"), ("E2", "oops")])]

/-- The claim fails on `batchBad`: with the unparseable event present the
batch returns an error and produces no records at all, although without it
the same batch produces `[R0]`. -/
theorem unparseable_date_aborts_batch :
    analyze_all_events id parse0 batchBad = .error "oops"
  ∧ analyze_all_events id parse0 batchGood = .ok [R0] := by
  exact ⟨by with_unfolding_all rfl, by with_unfolding_all rfl⟩

/-- Witness for C3 (amended) at concrete inputs: prepending an empty series
with a parseable event to `batchGood` leaves the result unchanged, and a
single unparseable date yields the error. -/
theorem failure_isolation_witness :
    (∀ e ∈ [("E1", "d6")], ((parse0 e.2).isSome))
  ∧ analyze_all_events id parse0 (("S", ⟨[], [], none⟩, [("E1", "d6")]) :: batchGood)
      = analyze_all_events id parse0 batchGood
  ∧ analyzeEvents id parse0 "S" data12 [("E2", "oops")] = .error "oops" := by
  refine ⟨by decide, ?_, ?_⟩
  · exact (failure_isolation id parse0).1 "S" [("E1", "d6")] batchGood (by decide)
  · exact (failure_isolation id parse0).2 "S" data12 "E2" "oops" [] (by decide)

/-! The DataFrame mutation (C9) -/

/-- A two-session DataFrame without a `Returns` column. -/
def dataM : StockData :=
  { index := [0, 1], close := [1, 2], returns := none }

/-- Counterexample to C9 as stated: `calculate_event_volatility` does not
leave the caller's price data unchanged — it assigns the `Returns` column,
so the DataFrame after one evaluation differs from the input. -/
theorem price_data_mutated_counterexample :
    (calculate_event_volatility id dataM 0 5).1 ≠ dataM := by
  intro h
  have := congrArg StockData.returns h
  simp [calculate_event_volatility, dataM] at this

/-- C9 (amended): the per-event computation leaves the date index and the
close prices unchanged, but assigns the derived `Returns` column onto the
caller's DataFrame (idempotently, since it is recomputed from the
unchanged closes); across any number of evaluations in a batch the index
and closes are still exactly the input ones. -/
theorem price_series_frame (s : ℚ → ℚ) (parse : String → Option ℤ) :
    (∀ (data : StockData) (d : ℤ) (w : ℕ),
      (calculate_event_volatility s data d w).1.index = data.index
      ∧ (calculate_event_volatility s data d w).1.close = data.close
      ∧ (calculate_event_volatility s data d w).1.returns = some (pctChange data.close))
  ∧ (∀ (tk : String) (evts : List (String × String)) (data dfin : StockData)
       (rs : List VolatilityRecord),
       analyzeEvents s parse tk data evts = .ok (dfin, rs) →
       dfin.index = data.index ∧ dfin.close = data.close) := by
  constructor
  · intro data d w
    exact ⟨rfl, rfl, rfl⟩
  · intro tk evts data dfin rs h
    have := analyzeEvents_ok_mem s parse tk evts data dfin rs h
    exact ⟨this.2.1, this.2.2⟩

/-- Witness for C9 (amended): running the loop on `data12` returns the
DataFrame with only the `Returns` column added, index and closes intact. -/
theorem price_series_frame_witness :
    analyzeEvents id parse0 "T" data12 [("E1", "d6")]
      = .ok ({ data12 with returns := some (pctChange data12.close) }, [R0])
  ∧ ({ data12 with returns := some (pctChange data12.close) } : StockData).index
      = data12.index
  ∧ ({ data12 with returns := some (pctChange data12.close) } : StockData).close
      = data12.close := by
  refine ⟨by with_unfolding_all rfl, ?_⟩
  exact (price_series_frame id parse0).2 "T" [("E1", "d6")] data12
    { data12 with returns := some (pctChange data12.close) } [R0]
    (by with_unfolding_all rfl)

/-! The summary stage (`print_summary_stats`, source lines 191-220) -/

/-- Model of `pandas.Series.mean()`: NaN (`none`) on an empty series, else the
arithmetic mean. -/
def seriesMean (xs : List ℚ) : Option ℚ :=
  if xs.length = 0 then none else some (xs.sum / (xs.length : ℚ))

/-- Stable ascending insertion used by the median. -/
def insertAsc (x : ℚ) : List ℚ → List ℚ
  | [] => [x]
  | y :: ys => if x ≤ y then x :: y :: ys else y :: insertAsc x ys

/-- Ascending sort of a rational series. -/
def sortAsc (xs : List ℚ) : List ℚ :=
  xs.foldr insertAsc []

/-- Model of `pandas.Series.median()`: NaN (`none`) on an empty series, else the
middle element (odd length) or the mean of the two middle elements. -/
def seriesMedian (xs : List ℚ) : Option ℚ :=
  if xs.length = 0 then none
  else
    let ys := sortAsc xs
    if xs.length % 2 = 1 then some (ys.getD (xs.length / 2) 0)
    else some ((ys.getD (xs.length / 2 - 1) 0 + ys.getD (xs.length / 2) 0) / 2)

/-- Stable descending insertion by `Volatility_Change_Pct` over
index-decorated rows: a new row goes after every row with a strictly
larger or equal key already placed. -/
def insertDesc (x : ℕ × VolatilityRecord) :
    List (ℕ × VolatilityRecord) → List (ℕ × VolatilityRecord)
  | [] => [x]
  | y :: ys =>
    if y.2.Volatility_Change_Pct < x.2.Volatility_Change_Pct then x :: y :: ys
    else y :: insertDesc x ys

/-- Stable descending sort by `Volatility_Change_Pct` (rows inserted in
original order, so among equal keys earlier rows stay first). -/
def sortPctDesc (l : List (ℕ × VolatilityRecord)) : List (ℕ × VolatilityRecord) :=
  l.foldl (fun acc x => insertDesc x acc) []

/-- Model of `results_df.nlargest(n, 'Volatility_Change_Pct')` (keep `'first'`): the
first `n` rows of the table stably sorted by descending change percent,
each row carrying its original positional index. -/
def nlargest (n : ℕ) (rs : List VolatilityRecord) : List (ℕ × VolatilityRecord) :=
  (sortPctDesc rs.enum).take n

/-- The distinct values of a column in first-seen order
(`results_df['Ticker'].unique()`). -/
def uniqueFirst : List String → List String
  | [] => []
  | x :: xs => x :: uniqueFirst (xs.filter (fun y => y != x))
termination_by l => l.length
decreasing_by
  simp only [List.length_cons]
  exact Nat.lt_succ_of_le (List.length_filter_le _ _)

/-- Per-company average change percent, one entry per distinct ticker in
first-seen order (source lines 215-218). -/
def companyAverages (rs : List VolatilityRecord) : List (String × Option ℚ) :=
  (uniqueFirst (rs.map (·.Ticker))).map
    (fun tk => (tk, seriesMean ((rs.filter (fun r => r.Ticker == tk)).map
      (·.Volatility_Change_Pct))))

/-- The aggregate values `print_summary_stats` reports. -/
structure Summary where
  total : ℕ
  mean_change_pct : Option ℚ
  median_change_pct : Option ℚ
  increased : ℕ
  decreased : ℕ
  increased_pct : ℚ
  decreased_pct : ℚ
  top_increases : List (ℕ × VolatilityRecord)
  by_company : List (String × Option ℚ)
deriving DecidableEq, Repr

/-- The function `print_summary_stats` (source lines 191-220): mean and median tolerate
an empty table (pandas yields NaN), but the percentage lines divide the
strict-inequality counts by `len(results_df)` in plain Python, which
raises `ZeroDivisionError` when the table is empty; only a non-empty table
reaches the top-3 and per-company reports. -/
def print_summary_stats (rs : List VolatilityRecord) : Except String Summary :=
  let pcts := rs.map (·.Volatility_Change_Pct)
  let inc := (rs.filter (fun r => decide (0 < r.Volatility_Change_Pct))).length
  let dec := (rs.filter (fun r => decide (r.Volatility_Change_Pct < 0))).length
  if rs.length = 0 then .error "ZeroDivisionError"
  else .ok
    { total := rs.length
      mean_change_pct := seriesMean pcts
      median_change_pct := seriesMedian pcts
      increased := inc
      decreased := dec
      increased_pct := (inc : ℚ) / (rs.length : ℚ) * 100
      decreased_pct := (dec : ℚ) / (rs.length : ℚ) * 100
      top_increases := nlargest 3 rs
      by_company := companyAverages rs }

/-- Counterexample to C2 as stated: on the empty ResultsTable the summary
stage does not report undefined aggregates — it raises. -/
theorem empty_table_crashes :
    (print_summary_stats []).isOk = false := by
  rfl

/-- C2 (amended): on an empty ResultsTable the mean and median of the
change-percent column are undefined (NaN), and the top-N and per-group
collections are empty, but the summary stage raises `ZeroDivisionError`
computing the increased/decreased percentages instead of reporting the
undefined aggregates. -/
theorem empty_table_summary :
    print_summary_stats [] = .error "ZeroDivisionError"
  ∧ seriesMean [] = none
  ∧ seriesMedian [] = none
  ∧ nlargest 3 [] = []
  ∧ companyAverages [] = [] := by
  refine ⟨rfl, rfl, rfl, rfl, ?_⟩
  simp [companyAverages, uniqueFirst]

/-! Stability of the top-N selection (C8) -/

/-- The ranking priority realised by `sortPctDesc`: strictly larger change
percent first, ties resolved by smaller original row index. -/
def lexStrict (a b : ℕ × VolatilityRecord) : Prop :=
  b.2.Volatility_Change_Pct < a.2.Volatility_Change_Pct
  ∨ (a.2.Volatility_Change_Pct = b.2.Volatility_Change_Pct ∧ a.1 < b.1)

theorem insertDesc_perm (x : ℕ × VolatilityRecord) :
    ∀ l : List (ℕ × VolatilityRecord), (insertDesc x l).Perm (x :: l) := by
  intro l
  induction l with
  | nil => simp [insertDesc]
  | cons y ys ih =>
    by_cases h : y.2.Volatility_Change_Pct < x.2.Volatility_Change_Pct
    · simp [insertDesc, h]
    · simp only [insertDesc, if_neg h]
      exact (ih.cons y).trans (List.Perm.swap x y ys)

theorem mem_insertDesc {a x : ℕ × VolatilityRecord} {l : List (ℕ × VolatilityRecord)} :
    a ∈ insertDesc x l ↔ a = x ∨ a ∈ l := by
  rw [(insertDesc_perm x l).mem_iff]
  simp

theorem insertDesc_pairwise (x : ℕ × VolatilityRecord) :
    ∀ l : List (ℕ × VolatilityRecord), List.Pairwise lexStrict l →
      (∀ y ∈ l, y.1 < x.1) → List.Pairwise lexStrict (insertDesc x l) := by
  intro l
  induction l with
  | nil => intro _ _; simp [insertDesc, lexStrict]
  | cons y ys ih =>
    intro hl hidx
    obtain ⟨hy, hys⟩ := List.pairwise_cons.mp hl
    by_cases h : y.2.Volatility_Change_Pct < x.2.Volatility_Change_Pct
    · rw [insertDesc, if_pos h]
      refine List.pairwise_cons.mpr ⟨?_, hl⟩
      intro z hz
      rcases List.mem_cons.mp hz with hz | hz
      · subst hz; exact Or.inl h
      · have := hy z hz
        rcases this with hlt | ⟨heq, _⟩
        · exact Or.inl (lt_trans hlt h)
        · exact Or.inl (heq ▸ h)
    · rw [insertDesc, if_neg h]
      refine List.pairwise_cons.mpr ⟨?_, ih hys (fun a ha => hidx a (List.mem_cons_of_mem _ ha))⟩
      intro z hz
      rcases mem_insertDesc.mp hz with hz | hz
      · subst hz
        rcases eq_or_lt_of_le (le_of_not_lt h) with heq | hlt
        · exact Or.inr ⟨heq.symm, hidx y (List.mem_cons_self _ _)⟩
        · exact Or.inl hlt
      · exact hy z hz

theorem sortPctDesc_aux :
    ∀ (l acc : List (ℕ × VolatilityRecord)),
      List.Pairwise lexStrict acc →
      (∀ a ∈ acc, ∀ b ∈ l, a.1 < b.1) →
      List.Pairwise (fun a b => a.1 < b.1) l →
      List.Pairwise lexStrict (l.foldl (fun acc x => insertDesc x acc) acc)
      ∧ (l.foldl (fun acc x => insertDesc x acc) acc).Perm (acc ++ l) := by
  intro l
  induction l with
  | nil => intro acc hacc _ _; exact ⟨hacc, by simp⟩
  | cons x xs ih =>
    intro acc hacc hidx hl
    obtain ⟨hx, hxs⟩ := List.pairwise_cons.mp hl
    have h1 : List.Pairwise lexStrict (insertDesc x acc) :=
      insertDesc_pairwise x acc hacc (fun a ha => hidx a ha x (List.mem_cons_self _ _))
    have h2 : ∀ a ∈ insertDesc x acc, ∀ b ∈ xs, a.1 < b.1 := by
      intro a ha b hb
      rcases mem_insertDesc.mp ha with ha | ha
      · subst ha; exact hx b hb
      · exact hidx a ha b (List.mem_cons_of_mem _ hb)
    obtain ⟨hp, hperm⟩ := ih (insertDesc x acc) h1 h2 hxs
    refine ⟨hp, ?_⟩
    exact hperm.trans (((insertDesc_perm x acc).append_right xs).trans
      List.perm_middle.symm)

theorem enum_pairwise_idx (rs : List VolatilityRecord) :
    List.Pairwise (fun a b => a.1 < b.1) rs.enum := by
  rw [List.pairwise_iff_getElem]
  intro i j hi hj hij
  rw [List.getElem_enum, List.getElem_enum]
  exact hij

theorem sortPctDesc_sorted (rs : List VolatilityRecord) :
    List.Pairwise lexStrict (sortPctDesc rs.enum)
    ∧ (sortPctDesc rs.enum).Perm rs.enum := by
  have h := sortPctDesc_aux rs.enum [] (by simp) (by simp) (enum_pairwise_idx rs)
  exact ⟨h.1, by simpa using h.2⟩

/-- C8: the top-N selection (N = 3 in `print_summary_stats`) orders rows by
change percent descending; among rows with equal change percent the
earlier-inserted row comes first; every selected row is a table row; and
whenever a selected row is tied with an earlier-inserted table row, that
earlier row is selected too (the earlier row is preferred at the cutoff). -/
theorem nlargest_stable (n : ℕ) (rs : List VolatilityRecord) :
    List.Pairwise (fun a b =>
      b.2.Volatility_Change_Pct ≤ a.2.Volatility_Change_Pct) (nlargest n rs)
  ∧ List.Pairwise (fun a b =>
      a.2.Volatility_Change_Pct = b.2.Volatility_Change_Pct → a.1 < b.1) (nlargest n rs)
  ∧ (∀ p ∈ nlargest n rs, p ∈ rs.enum)
  ∧ (∀ p ∈ rs.enum, ∀ q ∈ nlargest n rs,
      p.2.Volatility_Change_Pct = q.2.Volatility_Change_Pct → p.1 < q.1 →
      p ∈ nlargest n rs) := by
  obtain ⟨hPW, hperm⟩ := sortPctDesc_sorted rs
  have htake : List.Pairwise lexStrict ((sortPctDesc rs.enum).take n) :=
    hPW.sublist (List.take_sublist n _)
  simp only [nlargest]
  refine ⟨?_, ?_, ?_, ?_⟩
  · refine htake.imp ?_
    intro a b hab
    rcases hab with hlt | ⟨heq, _⟩
    · exact le_of_lt hlt
    · exact ge_of_eq heq
  · refine htake.imp ?_
    intro a b hab heq
    rcases hab with hlt | ⟨_, hidx⟩
    · exact absurd heq (by intro h; rw [h] at hlt; exact lt_irrefl _ hlt)
    · exact hidx
  · intro p hp
    exact hperm.mem_iff.mp (List.Sublist.mem hp (List.take_sublist n _))
  · intro p hp q hq hpq hlt
    have hpfull : p ∈ sortPctDesc rs.enum := hperm.mem_iff.mpr hp
    obtain ⟨j, hj, hjp⟩ := List.mem_iff_getElem.mp hpfull
    obtain ⟨i, hi, hiq⟩ := List.mem_take_iff_getElem.mp hq
    rcases Nat.lt_trichotomy j i with hji | hji | hji
    · exact List.mem_take_iff_getElem.mpr ⟨j, by omega, hjp⟩
    · subst hji
      have hpq2 : p = q := hjp.symm.trans hiq
      rw [hpq2] at hlt
      exact absurd hlt (lt_irrefl _)
    · have hpair := List.pairwise_iff_getElem.mp hPW i j (by omega) hj hji
      rw [hiq, hjp] at hpair
      rcases hpair with hlt2 | ⟨heq2, hidx⟩
      · rw [hpq] at hlt2
        exact absurd hlt2 (lt_irrefl _)
      · omega

/-- Fixture rows with a tie in `Volatility_Change_Pct` (7, 5, 5). -/
def recA : VolatilityRecord :=
  { Ticker := "A", Event := "a", Date := "d", Before_Volatility := 1,
    After_Volatility := 1, Volatility_Change := 0, Volatility_Change_Pct := 7 }

def recB : VolatilityRecord :=
  { Ticker := "B", Event := "b", Date := "d", Before_Volatility := 1,
    After_Volatility := 1, Volatility_Change := 0, Volatility_Change_Pct := 5 }

def recC : VolatilityRecord :=
  { Ticker := "C", Event := "c", Date := "d", Before_Volatility := 1,
    After_Volatility := 1, Volatility_Change := 0, Volatility_Change_Pct := 5 }

/-- Witness for C8 on the tied table `[recA, recB, recC]`: the tied rows
`recB` (index 1) and `recC` (index 2) are both selected and the
earlier-inserted one is preferred. -/
theorem nlargest_stable_witness :
    ((1, recB) ∈ ([recA, recB, recC].enum))
  ∧ ((2, recC) ∈ nlargest 3 [recA, recB, recC])
  ∧ recB.Volatility_Change_Pct = recC.Volatility_Change_Pct
  ∧ (1 : ℕ) < 2
  ∧ (1, recB) ∈ nlargest 3 [recA, recB, recC] := by
  refine ⟨by with_unfolding_all decide, by with_unfolding_all decide,
    by with_unfolding_all decide, by decide, ?_⟩
  exact (nlargest_stable 3 [recA, recB, recC]).2.2.2 (1, recB)
    (by with_unfolding_all decide) (2, recC) (by with_unfolding_all decide)
    (by with_unfolding_all decide) (by decide)
